import Mathlib

/-
Verification of the result-store subsystem of the device-scanner repository
(src/device_scanner/result_manager.py) against its natural-language
specification.

Modelling conventions (shallow embedding):
- A directory of result files is a list of (filename, content) pairs, in the
  order in which the operating system enumerates them (os.listdir applies no
  sorting, so the list order stands for an arbitrary but fixed enumeration
  order).  Filenames on a real filesystem are distinct; theorems that need
  this assume Nodup of the name list.
- The content of a file is either a parsed record (the dictionary shape that
  save_result writes: test_id, test_name, timestamp, scan_data, filename) or
  a file whose content fails to parse as JSON, carrying the exception message
  that json.load would raise.
- Python dictionaries inside the opaque scan payload are modelled by a
  JSON-like inductive type with rational numbers standing for Python
  numerals.
- datetime.now() is modelled by passing the observed clock value as an
  explicit argument; save_result reads the clock twice in the source (once
  for the filename via strftime, once for the stored timestamp via
  isoformat), so it takes two clock arguments.
- The generated uuid is likewise passed explicitly, since it is a fresh
  random value chosen by the source.
- Python functions that can raise an uncaught exception on ill-shaped input
  (get_result_summary on payloads with wrongly-typed subfields) return an
  explicit crash value; functions that convert every exception to a
  structured error dictionary return an error constructor carrying the
  message.
-/

namespace ResultStore

/-- Calendar time at microsecond granularity, standing for a datetime value. -/
structure Timestamp where
  year : Nat
  month : Nat
  day : Nat
  hour : Nat
  minute : Nat
  second : Nat
  micro : Nat
deriving DecidableEq

/-- Decimal digits of a natural number, zero-padded on the left to width 2,
as produced by strftime field specifiers such as m, d, H, M, S. -/
def pad2 (n : Nat) : String :=
  if n < 10 then "0" ++ toString n else toString n

/-- Decimal digits of a natural number, zero-padded on the left to width 4,
as produced by the strftime field specifier Y for common years. -/
def pad4 (n : Nat) : String :=
  if n < 10 then "000" ++ toString n
  else if n < 100 then "00" ++ toString n
  else if n < 1000 then "0" ++ toString n
  else toString n

/-- Models datetime.strftime("%Y%m%d_%H%M%S"), the timestamp part of the
result filename built by save_result. -/
def fmtCompact (t : Timestamp) : String :=
  pad4 t.year ++ pad2 t.month ++ pad2 t.day ++ "_" ++
    pad2 t.hour ++ pad2 t.minute ++ pad2 t.second

/-- JSON-like values standing for the opaque scan payload (Python nested
dicts, lists, numbers, strings and None). -/
inductive Json where
  | null : Json
  | num (q : ℚ) : Json
  | str (s : String) : Json
  | obj (fields : List (String × Json)) : Json
  | arr (elems : List Json) : Json

/-- The record dictionary that save_result serializes into a result file:
keys test_id, test_name, timestamp, scan_data, filename. -/
structure StoredRec where
  test_id : String
  test_name : String
  timestamp : Timestamp
  scan_data : Json
  filename : String

/-- Content of one file in the results directory: either it parses as a
record, or json.load raises an exception with the given message. -/
inductive Content where
  | good (r : StoredRec) : Content
  | bad (msg : String) : Content

/-- True when the file content parses as a record. -/
def isGood : Content → Bool
  | Content.good _ => true
  | Content.bad _ => false

/-- The test_id stored in a parseable file, none for a malformed file. -/
def contentId : Content → Option String
  | Content.good r => some r.test_id
  | Content.bad _ => none

/-- One directory entry: filename paired with file content. -/
abbrev Entry := String × Content

/-- The results directory: entries listed in os.listdir enumeration order. -/
abbrev Dir := List Entry

/-- Filenames of a directory, in enumeration order. -/
def namesOf (d : Dir) : List String :=
  d.map Prod.fst

/-- Content of the file with the given name, none when absent. -/
def lookupContent : Dir → String → Option Content
  | [], _ => none
  | e :: rest, fn => if e.1 = fn then some e.2 else lookupContent rest fn

/-- True when the directory holds a file with the given name. -/
def hasName : Dir → String → Bool
  | [], _ => false
  | e :: rest, fn => (e.1 == fn) || hasName rest fn

/-- Writing a file: open(path, w) replaces the content when the name exists,
otherwise the new entry appears in the enumeration (placed last here; the
theorems that depend on position make their ordering assumptions explicit). -/
def writeFile (d : Dir) (fn : String) (c : Content) : Dir :=
  if hasName d fn then d.map (fun e => if e.1 == fn then (fn, c) else e)
  else d ++ [(fn, c)]

/-- Number of characters of a string, as Python len. -/
def strLen (s : String) : Nat :=
  s.data.length

/-- First n characters of a string, as the Python slice s[:n]. -/
def strTake (s : String) (n : Nat) : String :=
  String.mk (s.data.take n)

/-- Character-list prefix test. -/
def charListPrefix : List Char → List Char → Bool
  | [], _ => true
  | _ :: _, [] => false
  | a :: as, b :: bs => a == b && charListPrefix as bs

/-- Character-list substring (contiguous infix) test. -/
def charListInfix (needle : List Char) : List Char → Bool
  | [] => charListPrefix needle []
  | c :: rest => charListPrefix needle (c :: rest) || charListInfix needle rest

/-- Python substring test: needle in hay. -/
def strContains (hay needle : String) : Bool :=
  charListInfix needle.data hay.data

/-- Python str.endswith. -/
def strEndsWith (s suffix : String) : Bool :=
  charListPrefix suffix.data.reverse s.data.reverse

/-- Lexicographic comparison of character lists by code point, as Python
string comparison. -/
def charListLe : List Char → List Char → Bool
  | [], _ => true
  | _ :: _, [] => false
  | a :: as, b :: bs =>
    if a < b then true else if b < a then false else charListLe as bs

/-- Python string comparison a >= b, used through sorted(reverse=True). -/
def strGeB (a b : String) : Bool :=
  charListLe b.data a.data

/-- Propositional form of the descending comparison used for sorting. -/
def rGe (a b : String) : Prop :=
  strGeB a b = true

instance : DecidableRel rGe :=
  fun a b => instDecidableEqBool (strGeB a b) true

/-- Models sorted(os.listdir(dir), reverse=True): the filenames of the
directory in descending lexicographic order. -/
def sortedNames (d : Dir) : List String :=
  List.insertionSort rGe (namesOf d)

/-- The search key computed by load_result and delete_result:
result_id[:8] if len(result_id) >= 8 else result_id. -/
def searchKey (result_id : String) : String :=
  if 8 ≤ strLen result_id then strTake result_id 8 else result_id

/-- The filename filter applied inside the lookup loops:
search_id in filename and filename.endswith(".json"). -/
def matchesKey (key fname : String) : Bool :=
  strContains fname key && strEndsWith fname ".json"

/-- Result of load_result: the parsed record dictionary, or the structured
error dictionary with status error and the given message. -/
inductive LoadRes where
  | found (r : StoredRec) : LoadRes
  | err (msg : String) : LoadRes

/-- The loop body of load_result over the directory listing: for each file
whose name contains the search key and ends in .json, parse it; a parse
failure is returned as an error; when the supplied identifier is longer than
8 characters a parsed record whose test_id differs is skipped; otherwise the
parsed record is returned. -/
def loadLoop (key result_id : String) : Dir → LoadRes
  | [] => LoadRes.err ("找不到結果 ID: " ++ result_id)
  | e :: rest =>
    if matchesKey key e.1 then
      match e.2 with
      | Content.bad m => LoadRes.err m
      | Content.good r =>
        if decide (8 < strLen result_id) && (r.test_id != result_id) then
          loadLoop key result_id rest
        else LoadRes.found r
    else loadLoop key result_id rest

/-- ResultManager.load_result. -/
def load_result (d : Dir) (result_id : String) : LoadRes :=
  loadLoop (searchKey result_id) result_id d

/-- Result of delete_result: the success or error dictionary. -/
inductive DeleteRes where
  | ok (msg : String) : DeleteRes
  | err (msg : String) : DeleteRes

/-- The loop of delete_result: find the first file whose name contains the
search key and ends in .json; a parsed record with a differing test_id is
skipped when the identifier is longer than 8 characters; a parse failure is
ignored (except: pass) and the file is removed anyway.  Returns the removed
filename and the remaining directory, or none when nothing matches. -/
def deleteLoop (key result_id : String) : Dir → Option (String × Dir)
  | [] => none
  | e :: rest =>
    if matchesKey key e.1 then
      match e.2 with
      | Content.bad _ => some (e.1, rest)
      | Content.good r =>
        if decide (8 < strLen result_id) && (r.test_id != result_id) then
          (deleteLoop key result_id rest).map (fun p => (p.1, e :: p.2))
        else some (e.1, rest)
    else (deleteLoop key result_id rest).map (fun p => (p.1, e :: p.2))

/-- ResultManager.delete_result. -/
def delete_result (d : Dir) (result_id : String) : DeleteRes × Dir :=
  match deleteLoop (searchKey result_id) result_id d with
  | some (fn, d2) => (DeleteRes.ok ("結果已刪除: " ++ fn), d2)
  | none => (DeleteRes.err ("找不到結果 ID: " ++ result_id), d)

/-- Result of save_result on the success path: the dictionary with status
success, test_id, filename and message (the filepath field is the directory
path joined with the filename and is not modelled separately). -/
inductive SaveRes where
  | ok (test_id filename message : String) : SaveRes
  | err (msg : String) : SaveRes

/-- The filename computed by save_result from the first clock reading:
test_name _ strftime("%Y%m%d_%H%M%S") _ test_id[:8] .json. -/
def mkFilename (test_name : String) (t1 : Timestamp) (test_id : String) : String :=
  test_name ++ "_" ++ fmtCompact t1 ++ "_" ++ strTake test_id 8 ++ ".json"

/-- ResultManager.save_result.  t1 is the clock value read for the filename
(datetime.now().strftime), t2 the clock value read immediately afterwards for
the stored timestamp field (datetime.now().isoformat); test_id is the
generated uuid (or the caller-supplied identifier). -/
def save_result (d : Dir) (scan_data : Json) (test_name : String)
    (test_id : String) (t1 t2 : Timestamp) : Dir × SaveRes :=
  let fn := mkFilename test_name t1 test_id
  let r : StoredRec :=
    { test_id := test_id, test_name := test_name, timestamp := t2,
      scan_data := scan_data, filename := fn }
  (writeFile d fn (Content.good r),
   SaveRes.ok test_id fn ("結果保存成功: " ++ fn))

/-- One element of the list returned by list_results: the projection
test_id, test_name, timestamp, filename of a parsed record. -/
structure ListEntry where
  test_id : String
  test_name : String
  timestamp : Timestamp
  filename : String

/-- The projection applied by list_results to each parsed record. -/
def mkListEntry (r : StoredRec) : ListEntry :=
  { test_id := r.test_id, test_name := r.test_name,
    timestamp := r.timestamp, filename := r.filename }

/-- Result of list_results: status success with count and entries (the
error branch of the outer try is kept for shape; the modelled listdir call
does not fail). -/
inductive ListRes where
  | ok (count : Nat) (results : List ListEntry) : ListRes
  | err (msg : String) : ListRes

/-- Python truthiness of the limit argument: None and 0 are falsy. -/
def limitTruthy : Option Nat → Bool
  | none => false
  | some 0 => false
  | some (_ + 1) => true

/-- The loop of list_results over the reverse-sorted filenames: each .json
file is opened; a parse failure is skipped (except: pass); after each .json
file the loop breaks when limit is truthy and the collected count has
reached it. -/
def listLoop (d : Dir) (limit : Option Nat) : List String → List ListEntry → List ListEntry
  | [], acc => acc
  | fn :: rest, acc =>
    if strEndsWith fn ".json" then
      let acc2 := match lookupContent d fn with
        | some (Content.good r) => acc ++ [mkListEntry r]
        | _ => acc
      if limitTruthy limit && decide (limit.getD 0 ≤ acc2.length) then acc2
      else listLoop d limit rest acc2
    else listLoop d limit rest acc

/-- ResultManager.list_results. -/
def list_results (d : Dir) (limit : Option Nat) : ListRes :=
  let res := listLoop d limit (sortedNames d) []
  ListRes.ok res.length res

/-- The total_results field of ResultManager.get_statistics: the number of
files whose name ends in .json (the byte-size and directory-path fields
depend on on-disk sizes outside the content model and are not needed by the
claims). -/
def get_statistics_total_results (d : Dir) : Nat :=
  (d.filter (fun e => strEndsWith e.1 ".json")).length

/-- Python d.get(key, default) on a value expected to be a dictionary:
none models the AttributeError raised when the value is not a dictionary. -/
def pyGet (j : Json) (k : String) (dflt : Json) : Option Json :=
  match j with
  | Json.obj fs => some ((fs.lookup k).getD dflt)
  | _ => none

/-- Python d.get(key) with no default (absent key gives None), again none
models the AttributeError on a non-dictionary value. -/
def pyGetNone (j : Json) (k : String) : Option Json :=
  match j with
  | Json.obj fs => some ((fs.lookup k).getD Json.null)
  | _ => none

/-- Python disk.get("total_gb", 0) as consumed by the sum in
get_result_summary: 0 when the key is absent, the numeric value when it is a
number, and none (a TypeError inside sum, or an AttributeError when the
volume is not a dictionary) otherwise. -/
def volTotal (vol : Json) : Option ℚ :=
  match vol with
  | Json.obj g =>
    match g.lookup "total_gb" with
    | none => some (0 : ℚ)
    | some (Json.num q) => some q
    | some _ => none
  | _ => none

/-- Models sum(disk.get("total_gb", 0) for disk in dsk.values()); none when
the iteration or the addition raises. -/
def diskTotal : Json → Option ℚ
  | Json.obj vols =>
    vols.foldr
      (fun p acc =>
        match acc, volTotal p.2 with
        | some s, some q => some (q + s)
        | _, _ => none)
      (some (0 : ℚ))
  | _ => none

/-- The reduced view built by get_result_summary from the payload. -/
structure ScanSummary where
  system : Json
  physical_cores : Json
  logical_cores : Json
  cpu_percent : Json
  memory_total_gb : Json
  memory_used_gb : Json
  memory_percent : Json
  disk_total_gb : ℚ

/-- The summary dictionary computed from scan_data by get_result_summary;
none models an uncaught Python exception on an ill-shaped payload. -/
def mkSummary (sd : Json) : Option ScanSummary := do
  let sys ← pyGet sd "system" (Json.obj [])
  let cpu1 ← pyGet sd "cpu" (Json.obj [])
  let pc ← pyGetNone cpu1 "physical_cores"
  let cpu2 ← pyGet sd "cpu" (Json.obj [])
  let lc ← pyGetNone cpu2 "logical_cores"
  let cpu3 ← pyGet sd "cpu" (Json.obj [])
  let cp ← pyGetNone cpu3 "cpu_percent"
  let mem1 ← pyGet sd "memory" (Json.obj [])
  let mt ← pyGetNone mem1 "total_gb"
  let mem2 ← pyGet sd "memory" (Json.obj [])
  let mu ← pyGetNone mem2 "used_gb"
  let mem3 ← pyGet sd "memory" (Json.obj [])
  let mp ← pyGetNone mem3 "percent"
  let dsk ← pyGet sd "disk" (Json.obj [])
  let dt ← diskTotal dsk
  pure { system := sys, physical_cores := pc, logical_cores := lc,
         cpu_percent := cp, memory_total_gb := mt, memory_used_gb := mu,
         memory_percent := mp, disk_total_gb := dt }

/-- Result of get_result_summary: the success dictionary carrying the
record header fields plus the reduced summary, the error dictionary passed
through from load_result, or an uncaught exception (crash) on an ill-shaped
payload. -/
inductive SummaryRes where
  | ok (test_id test_name : String) (timestamp : Timestamp) (s : ScanSummary) : SummaryRes
  | err (msg : String) : SummaryRes
  | crash : SummaryRes

/-- ResultManager.get_result_summary. -/
def get_result_summary (d : Dir) (result_id : String) : SummaryRes :=
  match load_result d result_id with
  | LoadRes.err m => SummaryRes.err m
  | LoadRes.found r =>
    match mkSummary r.scan_data with
    | some s => SummaryRes.ok r.test_id r.test_name r.timestamp s
    | none => SummaryRes.crash

/-- Modelled from the spec: the total capacity of one volume, the total_gb
field taken as 0 when absent. -/
def specVolTotal (v : Json) : ℚ :=
  match v with
  | Json.obj g =>
    match g.lookup "total_gb" with
    | some (Json.num q) => q
    | _ => (0 : ℚ)
  | _ => (0 : ℚ)

/-- Modelled from the spec: the aggregate disk capacity described in the
specification, namely the sum over all volumes in the disk mapping of the
total capacity of the volume. -/
def specDiskSum (vols : List (String × Json)) : ℚ :=
  (vols.map (fun p => specVolTotal p.2)).sum

/-- Well-shaped volume entry: the value is a dictionary whose total_gb
field, when present, is a number — exactly the shapes on which the sum in
get_result_summary does not raise. -/
def volOk (p : String × Json) : Bool :=
  (volTotal p.2).isSome

/-- True when a parseable file carries a test_id longer than 8 characters
(every uuid does); trivially true for malformed files. -/
def idLongB : Content → Bool
  | Content.good s => decide (8 < strLen s.test_id)
  | Content.bad _ => true

/-- Modelled from the spec: the storage-key pattern the specification gives,
name _ created_at formatted YYYYMMDD_HHMMSS _ first 8 characters of id
.json, applied to the timestamp stored in the record itself. -/
def specStorageKey (name : String) (created_at : Timestamp) (id : String) : String :=
  name ++ "_" ++ fmtCompact created_at ++ "_" ++ strTake id 8 ++ ".json"

/-- Modelled from the spec: the resolution algorithm as the specification
words it, examining the directory entries in reverse lexicographic sort
order of filename instead of raw enumeration order, with the same per-file
structural test as load_result. -/
def load_result_spec_sorted (d : Dir) (result_id : String) : LoadRes :=
  loadLoop (searchKey result_id) result_id
    ((sortedNames d).filterMap (fun fn => (lookupContent d fn).map (fun c => (fn, c))))

/-- The directory restricted to its parseable files. -/
def filterGood (d : Dir) : Dir :=
  d.filter (fun e => isGood e.2)

/-- Distinctness of filenames, true of any real directory listing. -/
def namesNodup (d : Dir) : Prop :=
  (namesOf d).Nodup

instance : DecidablePred namesNodup :=
  fun d => List.nodupDecidable (namesOf d)

/-- The per-filename step performed by the list_results loop when no limit
is in force: .json files that parse contribute their projection. -/
def listStep (d : Dir) (fn : String) : Option ListEntry :=
  if strEndsWith fn ".json" then
    match lookupContent d fn with
    | some (Content.good r) => some (mkListEntry r)
    | _ => none
  else none

/-- Skip condition of the lookup loops: a file is passed over either because
its name does not match the filter, or because it parses to a record whose
test_id differs from the supplied identifier of length greater than 8. -/
def skipsEntry (key result_id : String) (p : Entry) : Prop :=
  matchesKey key p.1 = false ∨
    ∃ r, p.2 = Content.good r ∧ 8 < strLen result_id ∧ r.test_id ≠ result_id

/-- Concrete stored record used by the round-trip witness directory. -/
def c1other : StoredRec :=
  ⟨"99998888-7777-6666-5555-444433332222", "other", ⟨2025, 1, 1, 10, 0, 0, 0⟩,
    Json.null, "other_20250101_100000_99998888.json"⟩

/-- Pre-existing directory for the round-trip witness. -/
def c1wdir : Dir := [(c1other.filename, Content.good c1other)]

/-- First record of the short-prefix collision pair: its filename sorts
before the second one. -/
def c2recA : StoredRec :=
  ⟨"aaaa1111-2222-3333-4444-555555555555", "scan", ⟨2025, 1, 1, 0, 0, 0, 0⟩,
    Json.null, "scan_20250101_000000_aaaa1111.json"⟩

/-- Second record of the collision pair: same 8-character prefix, filename
sorts after the first. -/
def c2recB : StoredRec :=
  ⟨"aaaa1111-9999-8888-7777-666666666666", "scan", ⟨2025, 1, 2, 0, 0, 0, 0⟩,
    Json.null, "scan_20250102_000000_aaaa1111.json"⟩

/-- A directory whose enumeration order is ascending, the opposite of the
reverse-sorted order the specification describes. -/
def c2dir : Dir :=
  [(c2recA.filename, Content.good c2recA), (c2recB.filename, Content.good c2recB)]

/-- Record to be resolved in the prefix-resolution counterexample. -/
def c3recX : StoredRec :=
  ⟨"aaaa1111-2222-3333-4444-555555555555", "scan", ⟨2025, 1, 1, 0, 0, 0, 0⟩,
    Json.null, "scan_20250101_000000_aaaa1111.json"⟩

/-- Interfering record: its id prefix differs, but its name embeds the
8-character key of the first record, so its filename matches the substring
filter. -/
def c3recY : StoredRec :=
  ⟨"bbbb2222-9999-8888-7777-666666666666", "xxaaaa1111xx", ⟨2025, 1, 3, 0, 0, 0, 0⟩,
    Json.null, "xxaaaa1111xx_20250103_000000_bbbb2222.json"⟩

/-- Directory where the interfering record is enumerated first. -/
def c3dir : Dir :=
  [(c3recY.filename, Content.good c3recY), (c3recX.filename, Content.good c3recX)]

/-- A record enumerated before the deleted one in the delete witness. -/
def c4recA : StoredRec :=
  ⟨"11112222-3333-4444-5555-666677778888", "alpha", ⟨2025, 1, 1, 0, 0, 0, 0⟩,
    Json.null, "alpha_20250101_000000_11112222.json"⟩

/-- A record enumerated after the deleted one in the delete witness. -/
def c4recB : StoredRec :=
  ⟨"99990000-aaaa-bbbb-cccc-ddddeeee1111", "beta", ⟨2025, 1, 3, 0, 0, 0, 0⟩,
    Json.null, "beta_20250103_000000_99990000.json"⟩

/-- The record deleted in the delete witness. -/
def c4rec : StoredRec :=
  ⟨"55556666-7777-8888-9999-000011112222", "gamma", ⟨2025, 1, 2, 0, 0, 0, 0⟩,
    Json.null, "gamma_20250102_000000_55556666.json"⟩

/-- Entries before the deleted record. -/
def c4pre : Dir := [(c4recA.filename, Content.good c4recA)]

/-- Entries after the deleted record. -/
def c4post : Dir := [(c4recB.filename, Content.good c4recB)]

/-- The single record of the limit-0 counterexample directory. -/
def c5rec : StoredRec :=
  ⟨"cccc3333-2222-3333-4444-555555555555", "scan", ⟨2025, 1, 1, 0, 0, 0, 0⟩,
    Json.null, "scan_20250101_000000_cccc3333.json"⟩

/-- Directory holding one well-formed record. -/
def c5dir : Dir := [(c5rec.filename, Content.good c5rec)]

/-- Two-record directory for the limit witness. -/
def c5wdir : Dir :=
  [(c4recA.filename, Content.good c4recA), (c4recB.filename, Content.good c4recB)]

/-- Directory with one parseable and one malformed file, for the listing
part of the malformed-file policy. -/
def c7dir : Dir :=
  [("broken_20250104_000000_eeee5555.json", Content.bad "Expecting value: line 1 column 1 (char 0)"),
   (c4recA.filename, Content.good c4recA)]

/-- First clock reading of the storage-key counterexample: the last
microsecond of a year. -/
def c8t1 : Timestamp := ⟨2025, 12, 31, 23, 59, 59, 999999⟩

/-- Second clock reading of the storage-key counterexample: the first
microsecond of the next year. -/
def c8t2 : Timestamp := ⟨2026, 1, 1, 0, 0, 0, 0⟩

/-- Payload with two disk volumes, one missing its total_gb field. -/
def c9payload : Json :=
  Json.obj [("disk", Json.obj [("c", Json.obj [("total_gb", Json.num 100)]),
    ("d", Json.obj [])])]

/-- Record carrying the disk payload for the summary witness. -/
def c9rec : StoredRec :=
  ⟨"dddd4444-2222-3333-4444-555555555555", "scan", ⟨2025, 1, 5, 0, 0, 0, 0⟩,
    c9payload, "scan_20250105_000000_dddd4444.json"⟩

/-- Record carrying an empty payload for the graceful-degradation part of
the summary witness. -/
def c9recEmpty : StoredRec :=
  ⟨"eeee5555-2222-3333-4444-555555555555", "scan", ⟨2025, 1, 6, 0, 0, 0, 0⟩,
    Json.obj [], "scan_20250106_000000_eeee5555.json"⟩

/-- True of a filename whose content in the given directory parses. -/
def goodNameB (d : Dir) (fn : String) : Bool :=
  match lookupContent d fn with
  | some (Content.good _) => true
  | _ => false

theorem charListPrefix_append_self : ∀ (n b : List Char), charListPrefix n (n ++ b) = true := by
  intro n
  induction n with
  | nil => intro b; rfl
  | cons c cs ih =>
    intro b
    simp [charListPrefix, ih b]

theorem charListInfix_of_prefix {n hay : List Char} (h : charListPrefix n hay = true) :
    charListInfix n hay = true := by
  cases hay with
  | nil => exact h
  | cons c rest => simp [charListInfix, h]

theorem charListInfix_cons {n rest : List Char} (c : Char)
    (h : charListInfix n rest = true) : charListInfix n (c :: rest) = true := by
  simp [charListInfix, h]

theorem charListInfix_append : ∀ (a n b : List Char), charListInfix n (a ++ (n ++ b)) = true := by
  intro a
  induction a with
  | nil =>
    intro n b
    exact charListInfix_of_prefix (charListPrefix_append_self n b)
  | cons c cs ih =>
    intro n b
    exact charListInfix_cons c (ih n b)

theorem strEndsWith_append (a suffix : String) : strEndsWith (a ++ suffix) suffix = true := by
  simp only [strEndsWith, String.data_append, List.reverse_append]
  exact charListPrefix_append_self suffix.data.reverse a.data.reverse

theorem strTake_of_short {s : String} {n : Nat} (h : strLen s ≤ n) : strTake s n = s := by
  cases s with
  | mk data => exact congrArg String.mk (List.take_of_length_le h)

theorem searchKey_eq_take (rid : String) : searchKey rid = strTake rid 8 := by
  by_cases h : 8 ≤ strLen rid
  · simp [searchKey, h]
  · simp only [searchKey, if_neg h]
    exact (strTake_of_short (Nat.le_of_not_le h)).symm

theorem strLen_strTake (s : String) (n : Nat) : strLen (strTake s n) = min n (strLen s) := by
  simp [strLen, strTake]

theorem strTake_strTake (s : String) : strTake (strTake s 8) 8 = strTake s 8 := by
  simp [strTake, List.take_take]

theorem mkFilename_contains (name : String) (t : Timestamp) (id : String) :
    strContains (mkFilename name t id) (strTake id 8) = true := by
  have h : (mkFilename name t id).data =
      (name ++ "_" ++ fmtCompact t ++ "_").data ++ ((strTake id 8).data ++ ".json".data) := by
    simp [mkFilename, String.data_append, List.append_assoc]
  simp only [strContains, h]
  exact charListInfix_append _ _ _

theorem mkFilename_endsWith (name : String) (t : Timestamp) (id : String) :
    strEndsWith (mkFilename name t id) ".json" = true := by
  have h : mkFilename name t id =
      (name ++ "_" ++ fmtCompact t ++ "_" ++ strTake id 8) ++ ".json" := rfl
  rw [h]
  exact strEndsWith_append _ _

theorem mkFilename_matchesKey (name : String) (t : Timestamp) (id : String) :
    matchesKey (strTake id 8) (mkFilename name t id) = true := by
  simp [matchesKey, mkFilename_contains, mkFilename_endsWith]

theorem loadLoop_skip_cons {key rid : String} {p : Entry} (l : Dir)
    (h : skipsEntry key rid p) : loadLoop key rid (p :: l) = loadLoop key rid l := by
  obtain ⟨pn, pc⟩ := p
  rcases h with hm | ⟨r, hc, hlen, hne⟩
  · simp only [loadLoop]
    rw [hm]
    simp
  · simp only at hc
    subst hc
    simp only [loadLoop]
    cases hm : matchesKey key pn
    · simp
    · simp only [if_pos rfl]
      have hguard : (decide (8 < strLen rid) && (r.test_id != rid)) = true := by
        simp [hlen, bne_iff_ne, hne]
      rw [hguard]
      simp

theorem loadLoop_skip_append {key rid : String} (pre l : Dir)
    (h : ∀ p ∈ pre, skipsEntry key rid p) :
    loadLoop key rid (pre ++ l) = loadLoop key rid l := by
  induction pre with
  | nil => rfl
  | cons p ps ih =>
    rw [List.cons_append, loadLoop_skip_cons _ (h p (List.mem_cons_self p ps))]
    exact ih (fun q hq => h q (List.mem_cons_of_mem p hq))

theorem loadLoop_found_cons {key rid fn : String} {r : StoredRec} (l : Dir)
    (hm : matchesKey key fn = true) (hid : 8 < strLen rid → r.test_id = rid) :
    loadLoop key rid ((fn, Content.good r) :: l) = LoadRes.found r := by
  simp only [loadLoop, hm, if_pos rfl]
  have hguard : (decide (8 < strLen rid) && (r.test_id != rid)) = false := by
    by_cases hl : 8 < strLen rid
    · simp [bne_iff_ne, hid hl]
    · simp [hl]
  rw [hguard]
  simp

theorem loadLoop_bad_cons {key rid fn m : String} (l : Dir)
    (hm : matchesKey key fn = true) :
    loadLoop key rid ((fn, Content.bad m) :: l) = LoadRes.err m := by
  simp [loadLoop, hm]

theorem loadLoop_notfound {key rid : String} (l : Dir)
    (h : ∀ p ∈ l, skipsEntry key rid p) :
    loadLoop key rid l = LoadRes.err ("找不到結果 ID: " ++ rid) := by
  induction l with
  | nil => rfl
  | cons p ps ih =>
    rw [loadLoop_skip_cons _ (h p (List.mem_cons_self p ps))]
    exact ih (fun q hq => h q (List.mem_cons_of_mem p hq))

theorem loadLoop_middle_skip {key rid : String} {e : Entry} (ys : Dir)
    (he : skipsEntry key rid e) :
    ∀ xs : Dir, loadLoop key rid (xs ++ e :: ys) = loadLoop key rid (xs ++ ys) := by
  intro xs
  induction xs with
  | nil => exact loadLoop_skip_cons ys he
  | cons x xt ih =>
    obtain ⟨xn, xc⟩ := x
    cases xc with
    | bad m =>
      cases hm : matchesKey key xn
      · simpa [loadLoop, hm] using ih
      · simp [loadLoop, hm]
    | good r =>
      cases hm : matchesKey key xn
      · simpa [loadLoop, hm] using ih
      · cases hguard : (decide (8 < strLen rid) && (r.test_id != rid))
        · simp [loadLoop, hm, hguard]
        · simpa [loadLoop, hm, hguard] using ih

theorem deleteLoop_skip_cons {key rid : String} {p : Entry} (l : Dir)
    (h : skipsEntry key rid p) :
    deleteLoop key rid (p :: l) =
      (deleteLoop key rid l).map (fun q => (q.1, p :: q.2)) := by
  obtain ⟨pn, pc⟩ := p
  rcases h with hm | ⟨r, hc, hlen, hne⟩
  · simp only [deleteLoop]
    rw [hm]
    simp
  · simp only at hc
    subst hc
    simp only [deleteLoop]
    cases hm : matchesKey key pn
    · simp
    · simp only [if_pos rfl]
      have hguard : (decide (8 < strLen rid) && (r.test_id != rid)) = true := by
        simp [hlen, bne_iff_ne, hne]
      rw [hguard]
      simp

theorem deleteLoop_skip_append {key rid : String} (pre l : Dir)
    (h : ∀ p ∈ pre, skipsEntry key rid p) :
    deleteLoop key rid (pre ++ l) =
      (deleteLoop key rid l).map (fun q => (q.1, pre ++ q.2)) := by
  induction pre with
  | nil =>
    simp only [List.nil_append]
    cases deleteLoop key rid l with
    | none => rfl
    | some v => rfl
  | cons p ps ih =>
    rw [List.cons_append, deleteLoop_skip_cons _ (h p (List.mem_cons_self p ps)),
      ih (fun q hq => h q (List.mem_cons_of_mem p hq))]
    cases deleteLoop key rid l <;> rfl

theorem deleteLoop_good_hit {key rid fn : String} {r : StoredRec} (l : Dir)
    (hm : matchesKey key fn = true) (hid : 8 < strLen rid → r.test_id = rid) :
    deleteLoop key rid ((fn, Content.good r) :: l) = some (fn, l) := by
  simp only [deleteLoop, hm, if_pos rfl]
  have hguard : (decide (8 < strLen rid) && (r.test_id != rid)) = false := by
    by_cases hl : 8 < strLen rid
    · simp [bne_iff_ne, hid hl]
    · simp [hl]
  rw [hguard]
  simp

theorem deleteLoop_bad_hit {key rid fn m : String} (l : Dir)
    (hm : matchesKey key fn = true) :
    deleteLoop key rid ((fn, Content.bad m) :: l) = some (fn, l) := by
  simp [deleteLoop, hm]

theorem deleteLoop_none {key rid : String} (l : Dir)
    (h : ∀ p ∈ l, skipsEntry key rid p) : deleteLoop key rid l = none := by
  induction l with
  | nil => rfl
  | cons p ps ih =>
    rw [deleteLoop_skip_cons _ (h p (List.mem_cons_self p ps)),
      ih (fun q hq => h q (List.mem_cons_of_mem p hq))]
    rfl

theorem charListLe_total : ∀ (a b : List Char),
    charListLe a b = true ∨ charListLe b a = true := by
  intro a
  induction a with
  | nil => intro b; exact Or.inl rfl
  | cons x xs ih =>
    intro b
    cases b with
    | nil => exact Or.inr rfl
    | cons y ys =>
      by_cases hxy : x < y
      · exact Or.inl (by simp [charListLe, hxy])
      · by_cases hyx : y < x
        · exact Or.inr (by simp [charListLe, hyx])
        · rcases ih ys with h | h
          · exact Or.inl (by simp [charListLe, hxy, hyx, h])
          · exact Or.inr (by simp [charListLe, hxy, hyx, h])

theorem charListLe_trans : ∀ {a b c : List Char}, charListLe a b = true →
    charListLe b c = true → charListLe a c = true := by
  intro a
  induction a with
  | nil => intro b c h1 h2; rfl
  | cons x xs ih =>
    intro b c h1 h2
    cases b with
    | nil => simp [charListLe] at h1
    | cons y ys =>
      cases c with
      | nil => simp [charListLe] at h2
      | cons z zs =>
        by_cases hxy : x < y
        · by_cases hyz : y < z
          · simp [charListLe, lt_trans hxy hyz]
          · by_cases hzy : z < y
            · simp [charListLe, hyz, hzy] at h2
            · have hyz2 : y = z := le_antisymm (le_of_not_lt hzy) (le_of_not_lt hyz)
              subst hyz2
              simp [charListLe, hxy]
        · by_cases hyx : y < x
          · simp [charListLe, hxy, hyx] at h1
          · have hxy2 : x = y := le_antisymm (le_of_not_lt hyx) (le_of_not_lt hxy)
            subst hxy2
            simp only [charListLe, lt_self_iff_false, if_false] at h1
            by_cases hxz : x < z
            · simp [charListLe, hxz]
            · by_cases hzx : z < x
              · simp [charListLe, hxz, hzx] at h2
              · have hxz2 : x = z := le_antisymm (le_of_not_lt hzx) (le_of_not_lt hxz)
                subst hxz2
                simp only [charListLe, lt_self_iff_false, if_false] at h2 ⊢
                exact ih h1 h2

theorem charListLe_antisymm : ∀ {a b : List Char}, charListLe a b = true →
    charListLe b a = true → a = b := by
  intro a
  induction a with
  | nil =>
    intro b h1 h2
    cases b with
    | nil => rfl
    | cons y ys => simp [charListLe] at h2
  | cons x xs ih =>
    intro b h1 h2
    cases b with
    | nil => simp [charListLe] at h1
    | cons y ys =>
      by_cases hxy : x < y
      · simp [charListLe, hxy, lt_asymm hxy] at h2
      · by_cases hyx : y < x
        · simp [charListLe, hxy, hyx] at h1
        · have hxy2 : x = y := le_antisymm (le_of_not_lt hyx) (le_of_not_lt hxy)
          subst hxy2
          simp only [charListLe, lt_self_iff_false, if_false] at h1 h2
          rw [ih h1 h2]

theorem rGe_total (a b : String) : rGe a b ∨ rGe b a :=
  (charListLe_total b.data a.data).elim Or.inl Or.inr

theorem rGe_trans {a b c : String} (h1 : rGe a b) (h2 : rGe b c) : rGe a c :=
  charListLe_trans h2 h1

theorem rGe_antisymm {a b : String} (h1 : rGe a b) (h2 : rGe b a) : a = b := by
  cases a with
  | mk da =>
    cases b with
    | mk db => exact congrArg String.mk (charListLe_antisymm h2 h1)

theorem sortDesc_filter (p : String → Bool) (l : List String) :
    List.insertionSort rGe (l.filter p) = (List.insertionSort rGe l).filter p := by
  haveI : IsTotal String rGe := ⟨rGe_total⟩
  haveI : IsTrans String rGe := ⟨fun _ _ _ => rGe_trans⟩
  haveI : IsAntisymm String rGe := ⟨fun _ _ => rGe_antisymm⟩
  exact List.eq_of_perm_of_sorted
    ((List.perm_insertionSort rGe (l.filter p)).trans
      ((List.perm_insertionSort rGe l).filter p).symm)
    (List.sorted_insertionSort rGe (l.filter p))
    ((List.sorted_insertionSort rGe l).filter p)

theorem lookupContent_eq_of_mem {d : Dir} {fn : String} {c : Content}
    (hnd : namesNodup d) (hmem : (fn, c) ∈ d) : lookupContent d fn = some c := by
  induction d with
  | nil => cases hmem
  | cons e rest ih =>
    have hnd2 : e.1 ∉ namesOf rest ∧ (namesOf rest).Nodup := by
      simpa [namesNodup, namesOf] using hnd
    rcases List.mem_cons.mp hmem with heq | hmem2
    · subst heq
      simp [lookupContent]
    · by_cases hfe : e.1 = fn
      · exfalso
        apply hnd2.1
        rw [hfe]
        exact List.mem_map_of_mem Prod.fst hmem2
      · simp only [lookupContent, if_neg hfe]
        exact ih hnd2.2 hmem2

theorem mem_of_lookupContent {d : Dir} {fn : String} {c : Content}
    (h : lookupContent d fn = some c) : (fn, c) ∈ d := by
  induction d with
  | nil => cases h
  | cons e rest ih =>
    obtain ⟨en, ec⟩ := e
    by_cases hfe : en = fn
    · simp only [lookupContent, if_pos hfe] at h
      injection h with h2
      subst hfe
      subst h2
      exact List.mem_cons_self _ _
    · simp only [lookupContent, if_neg hfe] at h
      exact List.mem_cons_of_mem _ (ih h)

theorem lookupContent_of_mem_names {d : Dir} {fn : String}
    (h : fn ∈ namesOf d) : ∃ c, lookupContent d fn = some c := by
  induction d with
  | nil => cases h
  | cons e rest ih =>
    by_cases hfe : e.1 = fn
    · exact ⟨e.2, by simp [lookupContent, hfe]⟩
    · simp only [lookupContent, if_neg hfe]
      apply ih
      simp only [namesOf, List.map_cons, List.mem_cons] at h
      rcases h with h | h
      · exact absurd h.symm hfe
      · exact h

theorem goodNameB_eq_isGood {d : Dir} {fn : String} {c : Content}
    (h : lookupContent d fn = some c) : goodNameB d fn = isGood c := by
  cases c with
  | good r => simp [goodNameB, h, isGood]
  | bad m => simp [goodNameB, h, isGood]

theorem namesOf_filterGood {d : Dir} (hnd : namesNodup d) :
    namesOf (filterGood d) = (namesOf d).filter (goodNameB d) := by
  induction d with
  | nil => rfl
  | cons e rest ih =>
    have hnd2 : e.1 ∉ namesOf rest ∧ (namesOf rest).Nodup := by
      simpa [namesNodup, namesOf] using hnd
    have hself : lookupContent (e :: rest) e.1 = some e.2 := by
      simp [lookupContent]
    have htail : (namesOf rest).filter (goodNameB (e :: rest)) =
        (namesOf rest).filter (goodNameB rest) := by
      apply List.filter_congr
      intro fn hfn
      have hne : e.1 ≠ fn := fun hcontra => hnd2.1 (hcontra ▸ hfn)
      simp [goodNameB, lookupContent, hne]
    have ih2 := ih hnd2.2
    cases hg : isGood e.2 with
    | true =>
      have hname : goodNameB (e :: rest) e.1 = true := by
        rw [goodNameB_eq_isGood hself, hg]
      simp only [namesOf, filterGood] at ih2 htail ⊢
      simp [List.filter_cons, hg, hname, ih2, htail]
    | false =>
      have hname : goodNameB (e :: rest) e.1 = false := by
        rw [goodNameB_eq_isGood hself, hg]
      simp only [namesOf, filterGood] at ih2 htail ⊢
      simp [List.filter_cons, hg, hname, ih2, htail]

theorem lookupContent_filterGood {d : Dir} {fn : String} {r : StoredRec}
    (hnd : namesNodup d) (h : lookupContent d fn = some (Content.good r)) :
    lookupContent (filterGood d) fn = some (Content.good r) := by
  have hmem : (fn, Content.good r) ∈ d := mem_of_lookupContent h
  have hmem2 : (fn, Content.good r) ∈ filterGood d := by
    apply List.mem_filter.mpr
    exact ⟨hmem, rfl⟩
  have hnd2 : namesNodup (filterGood d) := by
    have hsub : List.Sublist (filterGood d) d := List.filter_sublist d
    exact List.Nodup.sublist (hsub.map Prod.fst) hnd
  exact lookupContent_eq_of_mem hnd2 hmem2

theorem filterMap_filter_of_none {α β : Type} (p : α → Bool) (f : α → Option β)
    (hf : ∀ a, p a = false → f a = none) :
    ∀ l : List α, (l.filter p).filterMap f = l.filterMap f := by
  intro l
  induction l with
  | nil => rfl
  | cons x xs ih =>
    cases hp : p x with
    | true =>
      rw [List.filter_cons_of_pos hp, List.filterMap_cons, List.filterMap_cons, ih]
    | false =>
      rw [List.filter_cons_of_neg (by simp [hp]), List.filterMap_cons, hf x hp, ih]

theorem listLoop_no_limit (d : Dir) :
    ∀ (names : List String) (acc : List ListEntry),
    listLoop d none names acc = acc ++ names.filterMap (listStep d) := by
  intro names
  induction names with
  | nil => intro acc; simp [listLoop]
  | cons fn rest ih =>
    intro acc
    cases hj : strEndsWith fn ".json" with
    | false => simp [listLoop, hj, listStep, ih]
    | true =>
      cases hlk : lookupContent d fn with
      | none => simp [listLoop, hj, limitTruthy, listStep, hlk, ih]
      | some c =>
        cases c with
        | good r => simp [listLoop, hj, limitTruthy, listStep, hlk, ih]
        | bad m => simp [listLoop, hj, limitTruthy, listStep, hlk, ih]

theorem listLoop_limit_count (d : Dir) (m : Nat) (hm : 1 ≤ m) :
    ∀ (names : List String) (acc : List ListEntry), acc.length < m →
    (∀ fn ∈ names, strEndsWith fn ".json" = true ∧
      ∃ r, lookupContent d fn = some (Content.good r)) →
    (listLoop d (some m) names acc).length = min m (acc.length + names.length) := by
  intro names
  induction names with
  | nil =>
    intro acc hacc _
    simp only [listLoop, List.length_nil]
    omega
  | cons fn rest ih =>
    intro acc hacc hgood
    obtain ⟨hj, r, hlk⟩ := hgood fn (List.mem_cons_self fn rest)
    have htr : limitTruthy (some m) = true := by
      cases m with
      | zero => omega
      | succ k => rfl
    have hlen2 : (acc ++ [mkListEntry r]).length = acc.length + 1 := by
      simp
    by_cases hbr : m ≤ acc.length + 1
    · have hcond : (limitTruthy (some m) &&
          decide ((some m).getD 0 ≤ (acc ++ [mkListEntry r]).length)) = true := by
        simp [htr, hlen2, hbr]
      simp only [listLoop, hj, hlk, hcond, if_true]
      simp only [hlen2, List.length_cons]
      omega
    · have hcond : (limitTruthy (some m) &&
          decide ((some m).getD 0 ≤ (acc ++ [mkListEntry r]).length)) = false := by
        simp [htr, hlen2]
        omega
      simp only [listLoop, hj, hlk, hcond, if_true]
      rw [if_neg (by simp [hcond])]
      have := ih (acc ++ [mkListEntry r]) (by omega)
        (fun g hg => hgood g (List.mem_cons_of_mem fn hg))
      rw [this, hlen2]
      simp only [List.length_cons]
      omega

theorem stats_middle (pre post : Dir) (e : Entry)
    (hj : strEndsWith e.1 ".json" = true) :
    get_statistics_total_results (pre ++ e :: post) =
      get_statistics_total_results (pre ++ post) + 1 := by
  simp only [get_statistics_total_results, List.filter_append, List.length_append,
    List.filter_cons, hj, if_true, List.length_cons]
  omega

theorem matchesKey_endsWith {key fn : String} (h : matchesKey key fn = true) :
    strEndsWith fn ".json" = true := by
  simp only [matchesKey, Bool.and_eq_true] at h
  exact h.2

theorem hasName_false_of_no_match {d : Dir} {key fn : String}
    (h : ∀ p ∈ d, matchesKey key p.1 = false) (hm : matchesKey key fn = true) :
    hasName d fn = false := by
  induction d with
  | nil => rfl
  | cons e rest ih =>
    have h1 : (e.1 == fn) = false := by
      apply beq_eq_false_iff_ne.mpr
      intro heq
      have := h e (List.mem_cons_self e rest)
      rw [heq, hm] at this
      cases this
    simp only [hasName, h1, Bool.false_or]
    exact ih (fun p hp => h p (List.mem_cons_of_mem e hp))

theorem goodNameB_true_lookup {d : Dir} {fn : String} (h : goodNameB d fn = true) :
    ∃ r, lookupContent d fn = some (Content.good r) := by
  cases hlk : lookupContent d fn with
  | none => simp [goodNameB, hlk] at h
  | some c =>
    cases c with
    | good r => exact ⟨r, rfl⟩
    | bad m => simp [goodNameB, hlk] at h

theorem isGood_good_elim {c : Content} (h : isGood c = true) :
    ∃ r, c = Content.good r := by
  cases c with
  | good r => exact ⟨r, rfl⟩
  | bad m => simp [isGood] at h

theorem goodNameB_false_listStep {d : Dir} {fn : String}
    (h : goodNameB d fn = false) : listStep d fn = none := by
  cases hlk : lookupContent d fn with
  | none => simp [listStep, hlk]
  | some c =>
    cases c with
    | good r => simp [goodNameB, hlk] at h
    | bad m => simp [listStep, hlk]

theorem list_results_none_eq (d : Dir) :
    list_results d none =
      ListRes.ok ((sortedNames d).filterMap (listStep d)).length
        ((sortedNames d).filterMap (listStep d)) := by
  unfold list_results
  rw [listLoop_no_limit d (sortedNames d) []]
  rfl

theorem filterMap_listStep_filterGood {d : Dir} (hnd : namesNodup d) :
    (sortedNames (filterGood d)).filterMap (listStep (filterGood d)) =
      (sortedNames d).filterMap (listStep d) := by
  have h1 : sortedNames (filterGood d) = (sortedNames d).filter (goodNameB d) := by
    unfold sortedNames
    rw [namesOf_filterGood hnd, sortDesc_filter]
  rw [h1]
  have h2 : ((sortedNames d).filter (goodNameB d)).filterMap (listStep (filterGood d)) =
      ((sortedNames d).filter (goodNameB d)).filterMap (listStep d) := by
    apply List.filterMap_congr
    intro fn hfn
    have hgood : goodNameB d fn = true := (List.mem_filter.mp hfn).2
    obtain ⟨r, hr⟩ := goodNameB_true_lookup hgood
    unfold listStep
    rw [hr, lookupContent_filterGood hnd hr]
  rw [h2]
  exact filterMap_filter_of_none (goodNameB d) (listStep d)
    (fun a ha => goodNameB_false_listStep ha) (sortedNames d)

theorem volTotal_spec {v : Json} {q : ℚ} (h : volTotal v = some q) :
    specVolTotal v = q := by
  cases v with
  | obj g =>
    cases hg : g.lookup "total_gb" with
    | none =>
      simp only [volTotal, hg] at h
      injection h with h2
      simp [specVolTotal, hg, h2]
    | some w =>
      cases w with
      | num x =>
        simp only [volTotal, hg] at h
        injection h with h2
        simp [specVolTotal, hg, h2]
      | null => simp [volTotal, hg] at h
      | str s => simp [volTotal, hg] at h
      | obj f2 => simp [volTotal, hg] at h
      | arr a2 => simp [volTotal, hg] at h
  | null => simp [volTotal] at h
  | num x => simp [volTotal] at h
  | str s => simp [volTotal] at h
  | arr a2 => simp [volTotal] at h

theorem diskTotal_spec {vols : List (String × Json)}
    (h : ∀ p ∈ vols, volOk p = true) :
    diskTotal (Json.obj vols) = some (specDiskSum vols) := by
  induction vols with
  | nil => simp [diskTotal, specDiskSum]
  | cons p ps ih =>
    have hok := h p (List.mem_cons_self p ps)
    cases hvt : volTotal p.2 with
    | none => simp [volOk, hvt] at hok
    | some q =>
      have ihe := ih (fun g hg => h g (List.mem_cons_of_mem p hg))
      simp only [diskTotal] at ihe
      simp only [diskTotal, List.foldr_cons, ihe, hvt]
      simp [specDiskSum, volTotal_spec hvt]

/-- Claim C1: for every payload P and name N, saving P under N and then
resolving the full id returned by save yields a record whose payload equals
P and whose name equals N.  The fresh uuid and the two clock readings are
explicit arguments; the hypothesis states that no pre-existing file already
matches the 8-character key of the fresh id, which is what the global
uniqueness of generated uuids provides. -/
theorem save_load_round_trip (d : Dir) (P : Json) (N id : String)
    (t1 t2 : Timestamp)
    (h : ∀ p ∈ d, matchesKey (strTake id 8) p.1 = false) :
    ∃ r : StoredRec,
      load_result (save_result d P N id t1 t2).1 id = LoadRes.found r ∧
        r.scan_data = P ∧ r.test_name = N := by
  refine ⟨⟨id, N, t2, P, mkFilename N t1 id⟩, ?_, rfl, rfl⟩
  have hmk : matchesKey (strTake id 8) (mkFilename N t1 id) = true :=
    mkFilename_matchesKey N t1 id
  have hnon : hasName d (mkFilename N t1 id) = false :=
    hasName_false_of_no_match h hmk
  have hdir : (save_result d P N id t1 t2).1 =
      d ++ [(mkFilename N t1 id,
        Content.good ⟨id, N, t2, P, mkFilename N t1 id⟩)] := by
    simp [save_result, writeFile, hnon]
  rw [hdir]
  unfold load_result
  rw [searchKey_eq_take]
  rw [loadLoop_skip_append d _ (fun p hp => Or.inl (h p hp))]
  exact loadLoop_found_cons _ hmk (fun _ => rfl)

/-- Witness for C1 at a concrete pre-existing directory, payload and
name. -/
theorem save_load_round_trip_witness :
    ∃ r : StoredRec,
      load_result
          (save_result c1wdir (Json.num 5) "device_scan"
            "aaaabbbb-cccc-dddd-eeee-ffff00001111"
            ⟨2025, 2, 1, 9, 30, 0, 0⟩ ⟨2025, 2, 1, 9, 30, 0, 120⟩).1
          "aaaabbbb-cccc-dddd-eeee-ffff00001111" = LoadRes.found r ∧
        r.scan_data = Json.num 5 ∧ r.test_name = "device_scan" :=
  save_load_round_trip c1wdir (Json.num 5) "device_scan"
    "aaaabbbb-cccc-dddd-eeee-ffff00001111"
    ⟨2025, 2, 1, 9, 30, 0, 0⟩ ⟨2025, 2, 1, 9, 30, 0, 120⟩ (by decide)

/-- Claim C2, counterexample: the claim says load_result examines the
directory entries in reverse lexicographic sort order of filename, so that
on an 8-character prefix collision queried by the short form the record
whose filename sorts last wins.  The code iterates os.listdir without
sorting: on a directory enumerated in ascending order the first filename
wins, while the algorithm the specification describes (load_result
relisted in reverse sort order) picks the other record. -/
theorem resolution_order_counterexample :
    load_result c2dir "aaaa1111" = LoadRes.found c2recA ∧
      load_result_spec_sorted c2dir "aaaa1111" = LoadRes.found c2recB ∧
      c2recA ≠ c2recB := by
  refine ⟨rfl, rfl, ?_⟩
  intro h
  have := congrArg StoredRec.test_id h
  simp only [c2recA, c2recB] at this
  exact absurd this (by decide)

/-- Claim C2 (amended): load_result examines the directory entries in the
order the operating system enumerates them (os.listdir applies no sort);
it considers each .json entry whose filename contains the 8-character
search key, requires the parsed id to equal the identifier exactly when the
identifier is longer than 8 characters, and returns the first
structurally-matching entry in enumeration order; on an 8-character prefix
collision queried by the short form, the record enumerated first wins. -/
theorem resolution_first_match (pre post : Dir) (fn rid : String)
    (r : StoredRec)
    (hpre : ∀ p ∈ pre, skipsEntry (searchKey rid) rid p)
    (hm : matchesKey (searchKey rid) fn = true)
    (hid : 8 < strLen rid → r.test_id = rid) :
    load_result (pre ++ (fn, Content.good r) :: post) rid = LoadRes.found r := by
  unfold load_result
  rw [loadLoop_skip_append pre _ hpre]
  exact loadLoop_found_cons post hm hid

/-- Witness for the amended C2: on the collision directory enumerated in
ascending filename order, the short query returns the record listed first,
not the one whose filename sorts last. -/
theorem resolution_first_match_witness :
    load_result c2dir "aaaa1111" = LoadRes.found c2recA :=
  resolution_first_match [] [(c2recB.filename, Content.good c2recB)]
    c2recA.filename "aaaa1111" c2recA (by intro p hp; cases hp)
    (by decide) (by intro h; exact absurd h (by decide))

/-- Claim C3, counterexample: the claim states that resolve(id) and
resolve(id[:8]) return the same record whenever no other record shares the
8-character id prefix.  Matching is a substring test on filenames, so a
record whose NAME embeds the key also matches: here c3recY has a different
id prefix (bbbb2222), yet the short query returns it while the full query
returns c3recX. -/
theorem prefix_resolution_counterexample :
    strTake c3recY.test_id 8 ≠ strTake c3recX.test_id 8 ∧
      load_result c3dir "aaaa1111-2222-3333-4444-555555555555" = LoadRes.found c3recX ∧
      load_result c3dir "aaaa1111" = LoadRes.found c3recY ∧
      c3recX ≠ c3recY := by
  refine ⟨by decide, rfl, rfl, ?_⟩
  intro h
  have := congrArg StoredRec.test_id h
  simp only [c3recX, c3recY] at this
  exact absurd this (by decide)

/-- Claim C3 (amended): resolving the full id and resolving its first 8
characters return the same stored record provided no other file in the
directory matches the 8-character key at all (neither through its id prefix
nor through any other part of its filename). -/
theorem prefix_resolution (pre post : Dir) (fn id : String) (r : StoredRec)
    (hlong : 8 < strLen id)
    (hid : r.test_id = id)
    (hm : matchesKey (strTake id 8) fn = true)
    (hpre : ∀ p ∈ pre, matchesKey (strTake id 8) p.1 = false)
    (_hpost : ∀ p ∈ post, matchesKey (strTake id 8) p.1 = false) :
    load_result (pre ++ (fn, Content.good r) :: post) id = LoadRes.found r ∧
      load_result (pre ++ (fn, Content.good r) :: post) (strTake id 8) =
        LoadRes.found r := by
  have h8 : strLen (strTake id 8) = 8 := by
    rw [strLen_strTake]
    omega
  constructor
  · unfold load_result
    rw [searchKey_eq_take]
    rw [loadLoop_skip_append pre _ (fun p hp => Or.inl (hpre p hp))]
    exact loadLoop_found_cons post hm (fun _ => hid)
  · unfold load_result
    rw [searchKey_eq_take, strTake_strTake]
    rw [loadLoop_skip_append pre _ (fun p hp => Or.inl (hpre p hp))]
    apply loadLoop_found_cons post hm
    intro hc
    rw [h8] at hc
    omega

/-- Witness for the amended C3 on a concrete two-record directory whose
other file does not match the key. -/
theorem prefix_resolution_witness :
    load_result
        [(c4recA.filename, Content.good c4recA),
          (c3recX.filename, Content.good c3recX)]
        "aaaa1111-2222-3333-4444-555555555555" = LoadRes.found c3recX ∧
      load_result
        [(c4recA.filename, Content.good c4recA),
          (c3recX.filename, Content.good c3recX)]
        (strTake "aaaa1111-2222-3333-4444-555555555555" 8) = LoadRes.found c3recX :=
  prefix_resolution [(c4recA.filename, Content.good c4recA)] []
    c3recX.filename "aaaa1111-2222-3333-4444-555555555555" c3recX
    (by decide) rfl (by decide) (by decide) (by decide)

/-- Claim C4: when the store is well formed (every file parses, ids are
distinct full uuids) and a record with the given full id is stored, a
successful delete(id) removes exactly that file; afterwards resolving that
id reports the structured not-found error, the count reported by
get_statistics drops by exactly one, and the resolution of every other
stored record is unchanged. -/
theorem delete_removes_exactly_one (pre post : Dir) (fn id : String)
    (r : StoredRec)
    (hid : r.test_id = id)
    (hlong : 8 < strLen id)
    (hm : matchesKey (searchKey id) fn = true)
    (hwf : ∀ p ∈ pre ++ (fn, Content.good r) :: post, isGood p.2 = true)
    (huniq : ∀ p ∈ pre ++ post, contentId p.2 ≠ some id)
    (hlenall : ∀ p ∈ pre ++ post, idLongB p.2 = true) :
    delete_result (pre ++ (fn, Content.good r) :: post) id =
        (DeleteRes.ok ("結果已刪除: " ++ fn), pre ++ post) ∧
      load_result (pre ++ post) id = LoadRes.err ("找不到結果 ID: " ++ id) ∧
      get_statistics_total_results (pre ++ (fn, Content.good r) :: post) =
        get_statistics_total_results (pre ++ post) + 1 ∧
      ∀ fn2 r2, (fn2, Content.good r2) ∈ pre ++ post →
        load_result (pre ++ post) r2.test_id =
          load_result (pre ++ (fn, Content.good r) :: post) r2.test_id := by
  have hskip : ∀ p ∈ pre ++ post, skipsEntry (searchKey id) id p := by
    intro p hp
    have hg : isGood p.2 = true := by
      rcases List.mem_append.mp hp with h1 | h1
      · exact hwf p (List.mem_append.mpr (Or.inl h1))
      · exact hwf p (List.mem_append.mpr (Or.inr (List.mem_cons_of_mem _ h1)))
    obtain ⟨s, hs⟩ := isGood_good_elim hg
    refine Or.inr ⟨s, hs, hlong, ?_⟩
    intro hcontra
    apply huniq p hp
    rw [hs, contentId, hcontra]
  have hskippre : ∀ p ∈ pre, skipsEntry (searchKey id) id p :=
    fun p hp => hskip p (List.mem_append.mpr (Or.inl hp))
  refine ⟨?_, ?_, ?_, ?_⟩
  · unfold delete_result
    rw [deleteLoop_skip_append pre _ hskippre,
      deleteLoop_good_hit post hm (fun _ => hid)]
    rfl
  · exact loadLoop_notfound _ hskip
  · exact stats_middle pre post (fn, Content.good r) (matchesKey_endsWith hm)
  · intro fn2 r2 hmem2
    have hlen2 : 8 < strLen r2.test_id := by
      have := hlenall (fn2, Content.good r2) hmem2
      simpa [idLongB] using this
    have hne2 : r.test_id ≠ r2.test_id := by
      intro hcontra
      apply huniq (fn2, Content.good r2) hmem2
      simp only [contentId]
      rw [← hcontra, hid]
    unfold load_result
    exact (loadLoop_middle_skip post
      (Or.inr ⟨r, rfl, hlen2, fun hc => hne2 (hc ▸ hid ▸ rfl)⟩) pre).symm

/-- Witness for C4 on a concrete three-record directory. -/
theorem delete_removes_exactly_one_witness :
    delete_result (c4pre ++ (c4rec.filename, Content.good c4rec) :: c4post)
        c4rec.test_id =
        (DeleteRes.ok ("結果已刪除: " ++ c4rec.filename), c4pre ++ c4post) ∧
      load_result (c4pre ++ c4post) c4rec.test_id =
        LoadRes.err ("找不到結果 ID: " ++ c4rec.test_id) ∧
      get_statistics_total_results
          (c4pre ++ (c4rec.filename, Content.good c4rec) :: c4post) =
        get_statistics_total_results (c4pre ++ c4post) + 1 ∧
      load_result (c4pre ++ c4post) c4recB.test_id =
        load_result (c4pre ++ (c4rec.filename, Content.good c4rec) :: c4post)
          c4recB.test_id := by
  have h := delete_removes_exactly_one c4pre c4post c4rec.filename
    c4rec.test_id c4rec rfl (by decide) (by decide) (by decide) (by decide)
    (by decide)
  exact ⟨h.1, h.2.1, h.2.2.1,
    h.2.2.2 c4recB.filename c4recB (by simp [c4pre, c4post])⟩

/-- Claim C5, counterexample: the claim quantifies over every k smaller
than the number of stored records, but list_results treats limit=0 the same
as no limit (Python falsiness of 0), so on a one-record store list(limit=0)
returns 1 entry instead of 0. -/
theorem list_limit_counterexample :
    list_results c5dir (some 0) = ListRes.ok 1 [mkListEntry c5rec] ∧
      list_results c5dir (some 0) ≠ ListRes.ok 0 [] := by
  refine ⟨rfl, ?_⟩
  intro h
  rw [show list_results c5dir (some 0) = ListRes.ok 1 [mkListEntry c5rec] from rfl] at h
  injection h with h1
  cases h1

/-- Claim C5 (amended): for a store of N well-formed records and any k with
1 ≤ k < N, list(limit=k) returns exactly k entries; k = 0 is excluded
because a 0 limit is falsy in Python and disables truncation. -/
theorem list_limit_truncates (d : Dir) (k : Nat)
    (hwf : ∀ p ∈ d, strEndsWith p.1 ".json" = true ∧ isGood p.2 = true)
    (hk1 : 1 ≤ k) (hkN : k < d.length) :
    ∃ l, list_results d (some k) = ListRes.ok k l ∧ l.length = k := by
  have hnames : ∀ fn ∈ sortedNames d, strEndsWith fn ".json" = true ∧
      ∃ r, lookupContent d fn = some (Content.good r) := by
    intro fn hfn
    have hfn2 : fn ∈ namesOf d :=
      (List.perm_insertionSort rGe (namesOf d)).mem_iff.mp hfn
    obtain ⟨c, hc⟩ := lookupContent_of_mem_names hfn2
    have hmem := mem_of_lookupContent hc
    obtain ⟨hj, hg⟩ := hwf _ hmem
    obtain ⟨r, hr⟩ := isGood_good_elim hg
    exact ⟨hj, r, by rw [hc]; exact congrArg some hr⟩
  have hlensort : (sortedNames d).length = d.length := by
    simp [sortedNames, namesOf]
  have hcount := listLoop_limit_count d k hk1 (sortedNames d) []
    (by simpa using hk1) hnames
  rw [List.length_nil, Nat.zero_add, hlensort] at hcount
  have hmin : min k d.length = k := by omega
  rw [hmin] at hcount
  exact ⟨listLoop d (some k) (sortedNames d) [], by simp [list_results, hcount], hcount⟩

/-- Witness for the amended C5: a two-record store truncated to one
entry. -/
theorem list_limit_truncates_witness :
    ∃ l, list_results c5wdir (some 1) = ListRes.ok 1 l ∧ l.length = 1 :=
  list_limit_truncates c5wdir 1 (by decide) (by decide) (by decide)

/-- Claim C6: for an identifier that matches no stored file, both
load_result and delete_result return the structured error dictionary with
status error and a message, and neither raises: both functions are total
and every non-matching path ends in the error constructor, never in an
exception. -/
theorem notfound_structured (d : Dir) (rid : String)
    (h : ∀ p ∈ d, matchesKey (searchKey rid) p.1 = false) :
    load_result d rid = LoadRes.err ("找不到結果 ID: " ++ rid) ∧
      delete_result d rid = (DeleteRes.err ("找不到結果 ID: " ++ rid), d) := by
  constructor
  · exact loadLoop_notfound d (fun p hp => Or.inl (h p hp))
  · unfold delete_result
    rw [deleteLoop_none d (fun p hp => Or.inl (h p hp))]

/-- Witness for C6: the literal query nonexistent against a populated
store. -/
theorem notfound_structured_witness :
    load_result c2dir "nonexistent" =
        LoadRes.err ("找不到結果 ID: " ++ "nonexistent") ∧
      delete_result c2dir "nonexistent" =
        (DeleteRes.err ("找不到結果 ID: " ++ "nonexistent"), c2dir) :=
  notfound_structured c2dir "nonexistent" (by decide)

/-- Claim C7: a file whose content fails to parse is skipped silently
during listing — list_results over any directory returns exactly what it
returns over the directory restricted to its parseable files — while a
malformed file hit during a direct load is surfaced as the structured
error value. -/
theorem malformed_policy (d1 : Dir) (pre post : Dir) (fn m rid : String)
    (hnd : namesNodup d1)
    (hpre : ∀ p ∈ pre, matchesKey (searchKey rid) p.1 = false)
    (hm : matchesKey (searchKey rid) fn = true) :
    list_results d1 none = list_results (filterGood d1) none ∧
      load_result (pre ++ (fn, Content.bad m) :: post) rid = LoadRes.err m := by
  constructor
  · rw [list_results_none_eq, list_results_none_eq,
      filterMap_listStep_filterGood hnd]
  · unfold load_result
    rw [loadLoop_skip_append pre _ (fun p hp => Or.inl (hpre p hp))]
    exact loadLoop_bad_cons post hm

/-- Witness for C7: a directory with one malformed and one good file lists
like its good-only restriction, and a direct load that hits the malformed
file returns its parse-error message. -/
theorem malformed_policy_witness :
    list_results c7dir none = list_results (filterGood c7dir) none ∧
      load_result
          [(c4recA.filename, Content.good c4recA),
            ("broken_20250104_000000_eeee5555.json",
              Content.bad "Expecting value: line 1 column 1 (char 0)")]
          "eeee5555-aaaa-bbbb-cccc-dddd11112222" =
        LoadRes.err "Expecting value: line 1 column 1 (char 0)" :=
  malformed_policy c7dir [(c4recA.filename, Content.good c4recA)] []
    "broken_20250104_000000_eeee5555.json"
    "Expecting value: line 1 column 1 (char 0)"
    "eeee5555-aaaa-bbbb-cccc-dddd11112222"
    (by decide) (by decide) (by decide)

/-- Claim C8, counterexample: save_result reads the clock twice — once for
the filename (strftime) and once for the timestamp stored in the record
(isoformat).  When the two readings straddle a second boundary, the
on-disk filename and the stored filename field are built from the first
reading, while applying the specified pattern to the timestamp stored in
the record itself yields a different string, so the storage key is not the
stated function of the record fields (name, created_at, id). -/
theorem storage_key_counterexample :
    (save_result [] Json.null "device_scan"
        "aaaa1111-2222-3333-4444-555555555555" c8t1 c8t2).1 =
      [("device_scan_20251231_235959_aaaa1111.json",
        Content.good ⟨"aaaa1111-2222-3333-4444-555555555555", "device_scan",
          c8t2, Json.null, "device_scan_20251231_235959_aaaa1111.json"⟩)] ∧
      specStorageKey "device_scan" c8t2 "aaaa1111-2222-3333-4444-555555555555" =
        "device_scan_20260101_000000_aaaa1111.json" ∧
      ("device_scan_20251231_235959_aaaa1111.json" : String) ≠
        "device_scan_20260101_000000_aaaa1111.json" := by
  exact ⟨rfl, rfl, by decide⟩

/-- Claim C8 (amended): whenever the two clock readings taken inside
save_result fall within the same strftime second, the on-disk filename and
the filename field stored inside the record are both exactly the pattern
name _ YYYYMMDD_HHMMSS of created_at _ first 8 characters of id .json
applied to the timestamp stored in the record. -/
theorem storage_key_pattern (d : Dir) (P : Json) (N id : String)
    (t1 t2 : Timestamp)
    (hsec : fmtCompact t1 = fmtCompact t2) :
    mkFilename N t1 id = specStorageKey N t2 id ∧
      (save_result d P N id t1 t2).1 =
        writeFile d (specStorageKey N t2 id)
          (Content.good ⟨id, N, t2, P, specStorageKey N t2 id⟩) := by
  have h : mkFilename N t1 id = specStorageKey N t2 id := by
    unfold mkFilename specStorageKey
    rw [hsec]
  refine ⟨h, ?_⟩
  simp only [save_result, h]

/-- Witness for the amended C8 with both clock readings inside the same
second. -/
theorem storage_key_pattern_witness :
    mkFilename "device_scan" ⟨2025, 3, 4, 12, 0, 5, 100⟩
        "aaaa1111-2222-3333-4444-555555555555" =
      specStorageKey "device_scan" ⟨2025, 3, 4, 12, 0, 5, 900⟩
        "aaaa1111-2222-3333-4444-555555555555" ∧
      (save_result [] Json.null "device_scan"
          "aaaa1111-2222-3333-4444-555555555555"
          ⟨2025, 3, 4, 12, 0, 5, 100⟩ ⟨2025, 3, 4, 12, 0, 5, 900⟩).1 =
        writeFile [] (specStorageKey "device_scan" ⟨2025, 3, 4, 12, 0, 5, 900⟩
            "aaaa1111-2222-3333-4444-555555555555")
          (Content.good ⟨"aaaa1111-2222-3333-4444-555555555555", "device_scan",
            ⟨2025, 3, 4, 12, 0, 5, 900⟩, Json.null,
            specStorageKey "device_scan" ⟨2025, 3, 4, 12, 0, 5, 900⟩
              "aaaa1111-2222-3333-4444-555555555555"⟩) :=
  storage_key_pattern [] Json.null "device_scan"
    "aaaa1111-2222-3333-4444-555555555555"
    ⟨2025, 3, 4, 12, 0, 5, 100⟩ ⟨2025, 3, 4, 12, 0, 5, 900⟩ rfl

/-- Claim C9: for a stored record resolved by its id, get_result_summary
returns the reduced view rather than the payload; its disk total equals
the specified sum of each volume total (0 when the total_gb field is
absent) over all volumes of the disk mapping, and every header field it
reads degrades to the empty-dictionary or None default instead of crashing
when the corresponding payload section is missing. -/
theorem summarize_disk_and_graceful (pre post : Dir) (fn id : String)
    (r : StoredRec)
    (hid : r.test_id = id)
    (hm : matchesKey (searchKey id) fn = true)
    (hpre : ∀ p ∈ pre, matchesKey (searchKey id) p.1 = false)
    (fs cf mf vols : List (String × Json))
    (hsd : r.scan_data = Json.obj fs)
    (hcpu : (fs.lookup "cpu").getD (Json.obj []) = Json.obj cf)
    (hmem : (fs.lookup "memory").getD (Json.obj []) = Json.obj mf)
    (hdisk : (fs.lookup "disk").getD (Json.obj []) = Json.obj vols)
    (hvols : ∀ p ∈ vols, volOk p = true) :
    get_result_summary (pre ++ (fn, Content.good r) :: post) id =
      SummaryRes.ok r.test_id r.test_name r.timestamp
        { system := (fs.lookup "system").getD (Json.obj []),
          physical_cores := (cf.lookup "physical_cores").getD Json.null,
          logical_cores := (cf.lookup "logical_cores").getD Json.null,
          cpu_percent := (cf.lookup "cpu_percent").getD Json.null,
          memory_total_gb := (mf.lookup "total_gb").getD Json.null,
          memory_used_gb := (mf.lookup "used_gb").getD Json.null,
          memory_percent := (mf.lookup "percent").getD Json.null,
          disk_total_gb := specDiskSum vols } := by
  have hload : load_result (pre ++ (fn, Content.good r) :: post) id =
      LoadRes.found r := by
    unfold load_result
    rw [loadLoop_skip_append pre _ (fun p hp => Or.inl (hpre p hp))]
    exact loadLoop_found_cons post hm (fun _ => hid)
  have hsum : mkSummary r.scan_data = some
      { system := (fs.lookup "system").getD (Json.obj []),
        physical_cores := (cf.lookup "physical_cores").getD Json.null,
        logical_cores := (cf.lookup "logical_cores").getD Json.null,
        cpu_percent := (cf.lookup "cpu_percent").getD Json.null,
        memory_total_gb := (mf.lookup "total_gb").getD Json.null,
        memory_used_gb := (mf.lookup "used_gb").getD Json.null,
        memory_percent := (mf.lookup "percent").getD Json.null,
        disk_total_gb := specDiskSum vols } := by
    rw [hsd]
    simp [mkSummary, pyGet, pyGetNone, hcpu, hmem, hdisk, diskTotal_spec hvols]
  unfold get_result_summary
  simp only [hload, hsum]

/-- Witness for C9: the disk total of a stored two-volume payload (one
volume missing total_gb) is 100, and a record with an empty payload
summarizes to all defaults with disk total 0 instead of crashing. -/
theorem summarize_disk_and_graceful_witness :
    get_result_summary
        [(c4recA.filename, Content.good c4recA),
          (c9rec.filename, Content.good c9rec)] c9rec.test_id =
      SummaryRes.ok c9rec.test_id c9rec.test_name c9rec.timestamp
        { system := Json.obj [], physical_cores := Json.null,
          logical_cores := Json.null, cpu_percent := Json.null,
          memory_total_gb := Json.null, memory_used_gb := Json.null,
          memory_percent := Json.null, disk_total_gb := (100 : ℚ) } ∧
      get_result_summary [(c9recEmpty.filename, Content.good c9recEmpty)]
          c9recEmpty.test_id =
        SummaryRes.ok c9recEmpty.test_id c9recEmpty.test_name
          c9recEmpty.timestamp
          { system := Json.obj [], physical_cores := Json.null,
            logical_cores := Json.null, cpu_percent := Json.null,
            memory_total_gb := Json.null, memory_used_gb := Json.null,
            memory_percent := Json.null, disk_total_gb := (0 : ℚ) } := by
  constructor
  · have h := summarize_disk_and_graceful
      [(c4recA.filename, Content.good c4recA)] [] c9rec.filename
      c9rec.test_id c9rec rfl (by decide) (by decide)
      [("disk", Json.obj [("c", Json.obj [("total_gb", Json.num 100)]),
        ("d", Json.obj [])])]
      [] []
      [("c", Json.obj [("total_gb", Json.num 100)]), ("d", Json.obj [])]
      rfl rfl rfl rfl (by decide)
    simp only [List.cons_append, List.nil_append] at h
    rw [h]
    simp [specDiskSum, specVolTotal, List.lookup, List.sum_cons, List.sum_nil]
  · have h := summarize_disk_and_graceful [] [] c9recEmpty.filename
      c9recEmpty.test_id c9recEmpty rfl (by decide) (by decide)
      [] [] [] [] rfl rfl rfl rfl (by decide)
    simp only [List.nil_append] at h
    rw [h]
    simp [specDiskSum, specVolTotal]

/-- Claim C10 (implicit behavior of the code): when a file whose name
contains the 8-character search key fails to parse, delete_result removes
it and reports success without ever checking its stored test_id against
the supplied identifier — the theorem holds for every identifier whose key
the filename contains, whatever the file content was. -/
theorem delete_malformed_no_verification (pre post : Dir) (fn m id : String)
    (hpre : ∀ p ∈ pre, matchesKey (searchKey id) p.1 = false)
    (hm : matchesKey (searchKey id) fn = true) :
    delete_result (pre ++ (fn, Content.bad m) :: post) id =
      (DeleteRes.ok ("結果已刪除: " ++ fn), pre ++ post) := by
  unfold delete_result
  rw [deleteLoop_skip_append pre _ (fun p hp => Or.inl (hpre p hp)),
    deleteLoop_bad_hit post hm]
  rfl

/-- Witness for C10: deleting by a full uuid removes a malformed file whose
name happens to contain the 8-character key, reporting success although
the file content never revealed any matching test_id. -/
theorem delete_malformed_no_verification_witness :
    delete_result
        [(c4recA.filename, Content.good c4recA),
          ("broken_20250104_000000_eeee5555.json",
            Content.bad "Expecting value: line 1 column 1 (char 0)")]
        "eeee5555-aaaa-bbbb-cccc-dddd11112222" =
      (DeleteRes.ok ("結果已刪除: " ++ "broken_20250104_000000_eeee5555.json"),
        [(c4recA.filename, Content.good c4recA)]) :=
  delete_malformed_no_verification [(c4recA.filename, Content.good c4recA)]
    [] "broken_20250104_000000_eeee5555.json"
    "Expecting value: line 1 column 1 (char 0)"
    "eeee5555-aaaa-bbbb-cccc-dddd11112222" (by decide) (by decide)

end ResultStore
